import Mathlib

/-!
Verification of the NSE data downloader pipeline.

The repository ships the orchestration workflow (src/nse_downloader_action.py,
a GitHub Actions job definition) which invokes a Python downloader script.
The downloader core (Fetcher, Retry Policy, Batch Coordinator, Merger/Exporter)
is not part of the repository snapshot, so those components are modelled from
the specification; the workflow steps (check_files, validate, delete_old,
add_new, push, cleanup) are embedded from the workflow source itself.
-/

namespace NSE

/-- Modelled from the spec (section 3, missing downloader core): one normalized
price row.  Dates are modelled as naturals (ISO dates order-isomorphic to Nat),
prices as integers (decimal values scaled). -/
structure PriceRow where
  date : Nat
  price_open : Int
  price_high : Int
  price_low : Int
  price_close : Int
  volume : Nat
  symbol : String
  adjusted_close : Option Int
deriving Repr, DecidableEq

/-- Modelled from the spec (section 3, missing downloader core): the polymorphic
per-symbol result. -/
inductive SymbolResult where
  | Success (rows : List PriceRow) (count : Nat)
  | Failure (symbol : String) (reason : String) (attempts : Nat)
deriving Repr, DecidableEq

/-- Whether a result is the Success variant. -/
def SymbolResult.isSuccess : SymbolResult → Bool
  | .Success _ _ => true
  | .Failure _ _ _ => false

/-- The rows carried by a Success result (empty for Failure). -/
def successRows : SymbolResult → List PriceRow
  | .Success rows _ => rows
  | .Failure _ _ _ => []

/-- The count field of a Success result (zero for Failure). -/
def successCount : SymbolResult → Nat
  | .Success _ c => c
  | .Failure _ _ _ => 0

/-- Modelled from the spec (section 4.2, missing downloader core): error
messages carried into a Failure are truncated for display. -/
def truncateReason (s : String) : String := s.take 80

/-- Modelled from the spec (section 4.1, missing downloader core): one fetch
attempt.  The remote provider is an opaque collaborator, modelled as an
attempt-indexed function; a result of none models a transport error.  The
Fetcher fails with NoDataError on an empty result set, fails with
InsufficientRowsError when the row count is below the configured minimum, and
on success attaches the requested symbol as a column on every row. -/
def fetchOnce (provider : Nat → Option (List PriceRow)) (minRows : Nat)
    (sym : String) (attempt : Nat) : Except String (List PriceRow) :=
  match provider attempt with
  | none => .error "TransportError"
  | some rows =>
    if rows.isEmpty then .error "NoDataError"
    else if rows.length < minRows then .error "InsufficientRowsError"
    else .ok (rows.map (fun r => { r with symbol := sym }))

/-- True when the operation fails at the given attempt number. -/
def failsAt (op : Nat → Except String (List PriceRow)) (k : Nat) : Bool :=
  match op k with
  | .error _ => true
  | .ok _ => false

/-- Modelled from the spec (section 4.2, missing downloader core): the retry
loop.  The fuel argument counts the retries still allowed; the attempt counter
starts at 1.  Returns the final result together with the list of backoff sleep
durations (base_backoff times the attempt number, recorded in order). -/
def withRetryGo (sym : String) (op : Nat → Except String (List PriceRow))
    (base : ℚ) : Nat → Nat → SymbolResult × List ℚ
  | attempt, fuel =>
    match op attempt with
    | .ok rows => (.Success rows rows.length, [])
    | .error e =>
      match fuel with
      | 0 => (.Failure sym (truncateReason e) attempt, [])
      | f + 1 =>
        let rest := withRetryGo sym op base (attempt + 1) f
        (rest.1, base * (attempt : ℚ) :: rest.2)

/-- Modelled from the spec (section 4.2, missing downloader core):
with_retry(operation, max_attempts, base_backoff).  All failure is converted
to the Failure variant; the function is total, so no exception can cross this
boundary. -/
def with_retry (sym : String) (op : Nat → Except String (List PriceRow))
    (maxAttempts : Nat) (base : ℚ) : SymbolResult × List ℚ :=
  withRetryGo sym op base 1 (maxAttempts - 1)

/-- Spec default for max_attempts. -/
def max_attempts_default : Nat := 3

/-- Spec default for base_backoff (1.5 seconds). -/
def base_backoff_default : ℚ := 3 / 2

/-- Modelled from the spec (sections 4.1 and 4.3, missing downloader core):
the full per-symbol pipeline, Fetcher wrapped by the Retry Policy. -/
def runSymbol (provider : String → Nat → Option (List PriceRow))
    (minRows maxAttempts : Nat) (base : ℚ) (s : String) : SymbolResult :=
  (with_retry s (fetchOnce (provider s) minRows s) maxAttempts base).1

/-- Modelled from the spec (section 4.3, missing downloader core): the Batch
Coordinator.  An empty symbol list is rejected before any fetch is scheduled
(result none); otherwise every symbol yields exactly one result.  Concurrency
is not modelled: completion order is unconstrained by the spec and all claims
are order-insensitive, so the sequential map is a faithful embedding. -/
def run_batch (provider : String → Nat → Option (List PriceRow))
    (minRows maxAttempts : Nat) (base : ℚ) (symbols : List String) :
    Option (List SymbolResult) :=
  if symbols.isEmpty then none
  else some (symbols.map (fun s => runSymbol provider minRows maxAttempts base s))

/-- Total number of fetch attempts performed by a batch run: one more than the
number of backoff sleeps for each symbol, and zero when the run aborts on an
empty symbol list. -/
def batchAttempts (provider : String → Nat → Option (List PriceRow))
    (minRows maxAttempts : Nat) (base : ℚ) (symbols : List String) : Nat :=
  if symbols.isEmpty then 0
  else (symbols.map (fun s =>
    (with_retry s (fetchOnce (provider s) minRows s) maxAttempts base).2.length + 1)).sum

/-- The canonical sort order of the Dataset: symbol ascending, then date
ascending (spec sections 4.4 and 8: adjacent rows satisfy symbol strictly
less, or equal symbols and date less-or-equal). -/
def rowLE (a b : PriceRow) : Prop :=
  a.symbol < b.symbol ∨ (a.symbol = b.symbol ∧ a.date ≤ b.date)

lemma data_lt_iff (a b : String) : a.data < b.data ↔ a < b :=
  String.lt_iff_toList_lt.symm

instance : DecidableRel rowLE := fun a b =>
  decidable_of_iff
    (a.symbol.data < b.symbol.data ∨ (a.symbol = b.symbol ∧ a.date ≤ b.date)) (by
    unfold rowLE
    rw [data_lt_iff])

instance : IsTotal PriceRow rowLE := by
  constructor
  intro a b
  rcases lt_trichotomy a.symbol b.symbol with h | h | h
  · exact Or.inl (Or.inl h)
  · rcases Nat.le_total a.date b.date with hd | hd
    · exact Or.inl (Or.inr ⟨h, hd⟩)
    · exact Or.inr (Or.inr ⟨h.symm, hd⟩)
  · exact Or.inr (Or.inl h)

instance : IsTrans PriceRow rowLE := by
  constructor
  intro a b c hab hbc
  rcases hab with h1 | ⟨e1, d1⟩
  · rcases hbc with h2 | ⟨e2, _⟩
    · exact Or.inl (h1.trans h2)
    · exact Or.inl (e2 ▸ h1)
  · rcases hbc with h2 | ⟨e2, d2⟩
    · exact Or.inl (e1 ▸ h2)
    · exact Or.inr ⟨e1.trans e2, d1.trans d2⟩

/-- Modelled from the spec (section 4.4, missing downloader core): the Dataset
sort by (symbol ascending, date ascending). -/
def sortDataset (rows : List PriceRow) : List PriceRow :=
  List.insertionSort rowLE rows

/-- Modelled from the spec (sections 3 and 4.4, missing downloader core): the
output artifact summary. -/
structure OutputArtifact where
  path : String
  row_count : Nat
  symbol_count : Nat
  byte_size : Nat
  created_at : Nat
deriving Repr, DecidableEq

/-- Modelled from the spec (section 4.4, missing downloader core): the artifact
file name is deterministic in the current calendar day (one artifact name per
calendar day). -/
def artifactName (day : Nat) : String :=
  "nse_data_" ++ toString day ++ ".parquet"

/-- Whether a file name matches the artifact naming pattern
nse_data_*.parquet (top-level glob of the workflow and of the exporter). -/
def matchesPattern (f : String) : Bool :=
  ("nse_data_".data.isPrefixOf f.data) && (".parquet".data.isSuffixOf f.data)

/-- Modelled from the spec (section 4.4, missing downloader core): the merged,
canonically sorted Dataset built from the Success results. -/
def merged_dataset (results : List SymbolResult) : List PriceRow :=
  sortDataset (((results.filter (fun r => r.isSuccess)).map successRows).flatten)

/-- Modelled from the spec (section 4.4, missing downloader core):
merge_and_export.  Filters to Success results; with none it returns nothing
(no artifact produced); otherwise it returns the artifact summary for the
merged sorted Dataset, named from the current calendar day.  Physical byte
size of the compressed file is opaque, modelled as a parameter. -/
def merge_and_export (byteSize : List PriceRow → Nat) (day : Nat)
    (results : List SymbolResult) : Option OutputArtifact :=
  if (results.filter (fun r => r.isSuccess)).isEmpty then none
  else
    let ds := merged_dataset results
    some { path := artifactName day
           row_count := ds.length
           symbol_count := (ds.map (fun r => r.symbol)).dedup.length
           byte_size := byteSize ds
           created_at := day }

/-- Modelled from the spec (section 4.4, missing downloader core): the effect
of a successful export on the working directory, as a set of file names: the
artifact for the day is written (overwriting any file of the same name), then
every other file matching the artifact pattern is deleted. -/
def export_and_cleanup (fs : Finset String) (day : Nat) : Finset String :=
  (insert (artifactName day) fs).filter
    (fun f => matchesPattern f = false ∨ f = artifactName day)

/-- The working directory after a run of merge_and_export: unchanged when no
artifact is produced, otherwise the export-and-cleanup effect. -/
def exportEffect (byteSize : List PriceRow → Nat) (day : Nat)
    (results : List SymbolResult) (fs : Finset String) : Finset String :=
  match merge_and_export byteSize day results with
  | none => fs
  | some _ => export_and_cleanup fs day

/-- Modelled from the spec (sections 4.3 and 4.4, missing downloader core):
the whole run, batch then merge and export. -/
def run_all (provider : String → Nat → Option (List PriceRow))
    (minRows maxAttempts : Nat) (base : ℚ) (byteSize : List PriceRow → Nat)
    (day : Nat) (symbols : List String) : Option OutputArtifact :=
  match run_batch provider minRows maxAttempts base symbols with
  | none => none
  | some results => merge_and_export byteSize day results

/-! ## Workflow embedding (src/nse_downloader_action.py, the Actions job)

The job after the python run is a straight line of steps.  A step with an
if-condition runs when the job has not failed and its condition holds; a step
marked always() runs regardless.  The environment is a World: the top-level
files of the workspace after the downloader ran, the parquet reader (none
models a read error), the top-level files of the cloned NIFTY repository, and
whether the download step itself succeeded. -/

structure World where
  downloadOk : Bool
  localFiles : List String
  parse : String → Option Nat
  niftyFiles : List String

structure JobState where
  failed : Bool
  file_found : Bool
  parquet_file : Option String
  credentials : Bool
  cloned : Bool
  niftyFiles : List String
  deletionCommit : Bool
  updateCommit : Bool
  pushed : Bool
deriving Repr

/-- A guarded step: runs its body only when the job has not failed and the
step's if-condition holds (GitHub Actions default success() semantics). -/
def guardStep (c : Bool) (body : JobState → JobState) (s : JobState) : JobState :=
  if !s.failed && c then body s else s

/-- Step check_files (workflow lines 38-54): find the first top-level file
matching nse_data_*.parquet; exit 1 with file_found=false when none. -/
def findParquetFile (files : List String) : Option String :=
  (files.filter (fun f => matchesPattern f)).head?

def check_files (w : World) (s : JobState) : JobState :=
  match findParquetFile w.localFiles with
  | none => { s with failed := true, file_found := false }
  | some f => { s with file_found := true, parquet_file := some f }

/-- Step Validate parquet file (workflow lines 56-74): read the parquet file;
exit 1 on a read error or when it holds zero rows. -/
def validate_parquet (w : World) (s : JobState) : JobState :=
  match s.parquet_file with
  | none => { s with failed := true }
  | some f =>
    match w.parse f with
    | none => { s with failed := true }
    | some rows => if rows = 0 then { s with failed := true } else s

/-- Step Configure Git credentials (workflow lines 76-84): writes the stored
credentials file. -/
def configure_credentials (s : JobState) : JobState :=
  { s with credentials := true }

/-- Step Clone NIFTY repository (workflow lines 86-93). -/
def clone_nifty (w : World) (s : JobState) : JobState :=
  { s with cloned := true, niftyFiles := w.niftyFiles }

/-- Step delete_old (workflow lines 95-119) as a pure operation on the
top-level files of the NIFTY clone: when at least one file matches
nse_data_*.parquet, every matching file is removed and a deletion commit is
made (deleted=true); otherwise nothing changes (deleted=false). -/
def delete_old (repoFiles : List String) : List String × Bool :=
  let oldFiles := repoFiles.filter (fun f => matchesPattern f)
  if oldFiles.isEmpty then (repoFiles, false)
  else (repoFiles.filter (fun f => !matchesPattern f), true)

def delete_old_step (s : JobState) : JobState :=
  let res := delete_old s.niftyFiles
  { s with niftyFiles := res.1, deletionCommit := res.2 }

/-- Step add_new (workflow lines 121-140): copy every matching local file into
the clone and commit. -/
def add_new (w : World) (s : JobState) : JobState :=
  { s with niftyFiles := s.niftyFiles ++ w.localFiles.filter (fun f => matchesPattern f)
         , updateCommit := true }

/-- Step Push all changes (workflow lines 142-150): the only write to the
remote repository. -/
def push_changes (s : JobState) : JobState :=
  { s with pushed := true }

/-- The job from check_files up to and including the push step (the summary
step only writes the step summary and is omitted; the credentials cleanup has
not yet run here). -/
def afterPush (w : World) : JobState :=
  let s0 : JobState :=
    { failed := !w.downloadOk, file_found := false, parquet_file := none
    , credentials := false, cloned := false, niftyFiles := []
    , deletionCommit := false, updateCommit := false, pushed := false }
  let s1 := guardStep true (check_files w) s0
  let s2 := guardStep s1.file_found (validate_parquet w) s1
  let s3 := guardStep s2.file_found configure_credentials s2
  let s4 := guardStep s3.file_found (clone_nifty w) s3
  let s5 := guardStep s4.file_found delete_old_step s4
  let s6 := guardStep s5.file_found (add_new w) s5
  guardStep s6.file_found push_changes s6

/-- The whole job: after the push step, the Cleanup credentials step
(workflow lines 183-187) runs with if always(), removing the stored
credentials file regardless of any earlier failure. -/
def runJob (w : World) : JobState :=
  let s := afterPush w
  { s with credentials := false }

/-! ## Helper lemmas -/

lemma isPrefixOf_append_self : ∀ (l r : List Char), l.isPrefixOf (l ++ r) = true
  | [], _ => by simp [List.isPrefixOf]
  | a :: as, r => by
    simp only [List.cons_append, List.isPrefixOf, beq_self_eq_true, Bool.true_and]
    exact isPrefixOf_append_self as r

lemma isSuffixOf_append_self (l r : List Char) : r.isSuffixOf (l ++ r) = true := by
  unfold List.isSuffixOf
  rw [List.reverse_append]
  exact isPrefixOf_append_self _ _

lemma matchesPattern_artifactName (day : Nat) :
    matchesPattern (artifactName day) = true := by
  unfold matchesPattern artifactName
  rw [Bool.and_eq_true]
  constructor
  · have h : ("nse_data_" ++ toString day ++ ".parquet").data
        = "nse_data_".data ++ ((toString day).data ++ ".parquet".data) := by
      simp [List.append_assoc]
    rw [h]
    exact isPrefixOf_append_self _ _
  · have h : ("nse_data_" ++ toString day ++ ".parquet").data
        = ("nse_data_".data ++ (toString day).data) ++ ".parquet".data := by
      simp
    rw [h]
    exact isSuffixOf_append_self _ _

/-! ## Claim theorems -/

/-- C3: when every per-symbol fetch failed (zero Success results),
merge_and_export returns nothing and the working directory is unchanged (no
file is written). -/
theorem merge_no_success_none (byteSize : List PriceRow → Nat) (day : Nat)
    (results : List SymbolResult)
    (h : ∀ r ∈ results, r.isSuccess = false) :
    merge_and_export byteSize day results = none
      ∧ ∀ fs : Finset String, exportEffect byteSize day results fs = fs := by
  have hfil : results.filter (fun r => r.isSuccess) = [] := by
    rw [List.filter_eq_nil_iff]
    intro r hr
    simp [h r hr]
  have hm : merge_and_export byteSize day results = none := by
    unfold merge_and_export
    rw [hfil]
    rfl
  refine ⟨hm, fun fs => ?_⟩
  unfold exportEffect
  rw [hm]

/-- Witness for C3 at a concrete all-failure batch. -/
theorem merge_no_success_none_witness :
    merge_and_export (fun _ => 0) 20251010 [SymbolResult.Failure "TCS" "NoDataError" 3] = none
      ∧ ∀ fs : Finset String,
          exportEffect (fun _ => 0) 20251010 [SymbolResult.Failure "TCS" "NoDataError" 3] fs = fs :=
  merge_no_success_none (fun _ => 0) 20251010 [SymbolResult.Failure "TCS" "NoDataError" 3]
    (by decide)

/-- C6: export naming is idempotent per calendar day: after export plus
cleanup exactly one file matching the artifact pattern exists (the day's
artifact), and running export plus cleanup a second time on the same day
changes nothing (the artifact is overwritten, not duplicated). -/
theorem export_naming_idempotent (fs : Finset String) (day : Nat) :
    (export_and_cleanup fs day).filter (fun f => matchesPattern f = true)
        = {artifactName day}
      ∧ export_and_cleanup (export_and_cleanup fs day) day = export_and_cleanup fs day := by
  have hart := matchesPattern_artifactName day
  constructor
  · ext f
    simp only [export_and_cleanup, Finset.mem_filter, Finset.mem_insert,
      Finset.mem_singleton]
    constructor
    · rintro ⟨⟨_, hcond⟩, hmatch⟩
      rcases hcond with h | h
      · rw [hmatch] at h
        cases h
      · exact h
    · rintro rfl
      exact ⟨⟨Or.inl rfl, Or.inr rfl⟩, hart⟩
  · ext f
    simp only [export_and_cleanup, Finset.mem_filter, Finset.mem_insert]
    tauto

/-- C7: the empty symbol list aborts the run before scheduling: the batch
yields no results, zero fetch attempts are made, and the full run produces
zero artifacts. -/
theorem empty_symbols_aborts (provider : String → Nat → Option (List PriceRow))
    (minRows maxAttempts : Nat) (base : ℚ) (byteSize : List PriceRow → Nat)
    (day : Nat) :
    run_batch provider minRows maxAttempts base [] = none
      ∧ batchAttempts provider minRows maxAttempts base [] = 0
      ∧ run_all provider minRows maxAttempts base byteSize day [] = none := by
  refine ⟨rfl, rfl, ?_⟩
  unfold run_all
  have h : run_batch provider minRows maxAttempts base [] = none := rfl
  rw [h]

/-- C9: the delete_old step removes exactly the top-level files of the NIFTY
clone matching nse_data_*.parquet, leaving every other file unchanged, and
records a deletion commit exactly when at least one matching file existed. -/
theorem delete_old_frame (L : List String) :
    (delete_old L).1 = L.filter (fun f => !matchesPattern f)
      ∧ ((delete_old L).2 = true ↔ ∃ f ∈ L, matchesPattern f = true) := by
  by_cases h : (L.filter (fun f => matchesPattern f)).isEmpty
  · have hnil : L.filter (fun f => matchesPattern f) = [] := List.isEmpty_iff.mp h
    have hall : ∀ f ∈ L, matchesPattern f = false := by
      intro f hf
      have := List.filter_eq_nil_iff.mp hnil f hf
      simpa using this
    have hd : delete_old L = (L, false) := by
      unfold delete_old
      simp [h]
    rw [hd]
    constructor
    · rw [eq_comm, List.filter_eq_self]
      intro f hf
      simp [hall f hf]
    · constructor
      · intro hc
        simp at hc
      · rintro ⟨f, hf, hm⟩
        rw [hall f hf] at hm
        cases hm
  · have hd : delete_old L = (L.filter (fun f => !matchesPattern f), true) := by
      unfold delete_old
      simp [h]
    rw [hd]
    refine ⟨rfl, ?_⟩
    constructor
    · intro _
      have hne : L.filter (fun f => matchesPattern f) ≠ [] := by
        intro hc
        rw [hc] at h
        exact h rfl
      obtain ⟨f, hf⟩ := List.exists_mem_of_ne_nil _ hne
      have hm := List.mem_filter.mp hf
      exact ⟨f, hm.1, hm.2⟩
    · intro _
      rfl

/-- A concrete workflow environment in which every step succeeds. -/
def wEx : World :=
  { downloadOk := true
  , localFiles := ["nse_data_20251010.parquet"]
  , parse := fun _ => some 5
  , niftyFiles := ["README.md", "nse_data_20251003.parquet"] }

/-- C10: the stored git-credentials file is removed before the job ends on
every run, whatever happened earlier, because the cleanup step runs with
if always(); and the cleanup is not vacuous: there is a run in which the
credentials file exists just before the cleanup step. -/
theorem credentials_always_cleaned :
    (∀ w : World, (runJob w).credentials = false)
      ∧ (∃ w : World, (afterPush w).credentials = true) := by
  constructor
  · intro w
    rfl
  · exact ⟨wEx, by decide⟩

lemma withRetryGo_sleeps (sym : String) (op : Nat → Except String (List PriceRow))
    (base : ℚ) : ∀ (f a : Nat),
    (withRetryGo sym op base a f).2
      = ((List.range' a f).takeWhile (fun k => failsAt op k)).map
          (fun k => base * (k : ℚ)) := by
  intro f
  induction f with
  | zero =>
    intro a
    unfold withRetryGo
    cases hop : op a <;> simp [hop]
  | succ f ih =>
    intro a
    unfold withRetryGo
    cases hop : op a with
    | ok rows =>
      have hp : failsAt op a = false := by
        unfold failsAt
        rw [hop]
      simp [hop, List.range'_succ, List.takeWhile_cons, hp]
    | error e =>
      have hp : failsAt op a = true := by
        unfold failsAt
        rw [hop]
      simp [hop, List.range'_succ, List.takeWhile_cons, hp, ih (a + 1)]

lemma takeWhile_range'_eq_range' (p : Nat → Bool) :
    ∀ (n s : Nat), ∃ m, m ≤ n ∧ (List.range' s n).takeWhile p = List.range' s m := by
  intro n
  induction n with
  | zero =>
    intro s
    exact ⟨0, Nat.le_refl 0, rfl⟩
  | succ n ih =>
    intro s
    rw [List.range'_succ]
    cases hp : p s with
    | true =>
      obtain ⟨m, hm, hw⟩ := ih (s + 1)
      refine ⟨m + 1, Nat.succ_le_succ hm, ?_⟩
      rw [List.takeWhile_cons, hp, if_pos rfl, hw, List.range'_succ]
    | false =>
      refine ⟨0, Nat.zero_le _, ?_⟩
      rw [List.takeWhile_cons, hp]
      rfl

/-- C4: the Retry Policy sleeps after exactly the failed attempts whose
attempt number is below max_attempts, the sleep after failed attempt number k
lasting base_backoff times k: the recorded sleep trace maps k over the longest
run of consecutive failing attempt numbers 1, 2, ... below max_attempts, so
the delays grow linearly with the attempt index. -/
theorem retry_backoff_linear (sym : String)
    (op : Nat → Except String (List PriceRow)) (maxAttempts : Nat) (base : ℚ) :
    (with_retry sym op maxAttempts base).2
        = ((List.range' 1 (maxAttempts - 1)).takeWhile (fun k => failsAt op k)).map
            (fun k => base * (k : ℚ))
      ∧ ∃ m, m ≤ maxAttempts - 1 ∧
          (with_retry sym op maxAttempts base).2
            = (List.range' 1 m).map (fun k => base * (k : ℚ)) := by
  have h := withRetryGo_sleeps sym op base (maxAttempts - 1) 1
  refine ⟨h, ?_⟩
  obtain ⟨m, hm, hw⟩ := takeWhile_range'_eq_range' (fun k => failsAt op k)
    (maxAttempts - 1) 1
  refine ⟨m, hm, ?_⟩
  unfold with_retry
  rw [h, hw]

lemma withRetryGo_allfail (sym : String) (op : Nat → Except String (List PriceRow))
    (base : ℚ) : ∀ (f a : Nat),
    (∀ k, a ≤ k → k ≤ a + f → failsAt op k = true) →
    ∃ e, op (a + f) = .error e
      ∧ (withRetryGo sym op base a f).1
          = .Failure sym (truncateReason e) (a + f) := by
  intro f
  induction f with
  | zero =>
    intro a h
    have ha := h a (Nat.le_refl a) (Nat.le_add_right a 0)
    unfold failsAt at ha
    cases hop : op a with
    | ok rows =>
      rw [hop] at ha
      cases ha
    | error e =>
      refine ⟨e, hop, ?_⟩
      unfold withRetryGo
      rw [hop]
      rfl
  | succ f ih =>
    intro a h
    have ha := h a (Nat.le_refl a) (Nat.le_add_right a (f + 1))
    unfold failsAt at ha
    cases hop : op a with
    | ok rows =>
      rw [hop] at ha
      cases ha
    | error e =>
      obtain ⟨e', he', hr⟩ := ih (a + 1) (by
        intro k hk1 hk2
        refine h k (Nat.le_of_succ_le hk1) ?_
        omega)
      have hae : a + (f + 1) = a + 1 + f := by omega
      refine ⟨e', by rw [hae]; exact he', ?_⟩
      unfold withRetryGo
      rw [hop]
      simp only []
      rw [hae]
      exact hr

/-- C5: an operation failing on every attempt makes with_retry return the
Failure variant carrying the attempt count max_attempts; with_retry is a
total function into SymbolResult, so no exception crosses the policy boundary
and the Batch Coordinator observes only Success or Failure values. -/
theorem retry_all_fail_failure (sym : String)
    (op : Nat → Except String (List PriceRow)) (maxAttempts : Nat) (base : ℚ)
    (hmax : 1 ≤ maxAttempts)
    (hfail : ∀ k, 1 ≤ k → k ≤ maxAttempts → failsAt op k = true) :
    ∃ e, (with_retry sym op maxAttempts base).1
        = .Failure sym (truncateReason e) maxAttempts := by
  obtain ⟨e, _, hr⟩ := withRetryGo_allfail sym op base (maxAttempts - 1) 1 (by
    intro k hk1 hk2
    refine hfail k hk1 ?_
    omega)
  have h1 : 1 + (maxAttempts - 1) = maxAttempts := by omega
  rw [h1] at hr
  exact ⟨e, hr⟩

/-- Witness for C5: an operation erroring on every attempt, with the spec
defaults max_attempts = 3 and base_backoff = 1.5. -/
theorem retry_all_fail_failure_witness :
    ∃ e, (with_retry "TCS" (fun _ => Except.error "TransportError")
            max_attempts_default base_backoff_default).1
        = SymbolResult.Failure "TCS" (truncateReason e) max_attempts_default :=
  retry_all_fail_failure "TCS" (fun _ => Except.error "TransportError")
    max_attempts_default base_backoff_default (by decide) (fun _ _ _ => rfl)

/-- C2: in the Dataset produced by merge_and_export, any two adjacent rows
are ordered: the first row's symbol is strictly below the second's, or the
symbols are equal and the dates are non-decreasing. -/
theorem dataset_sort_invariant (results : List SymbolResult) (i : Nat)
    (hi : i + 1 < (merged_dataset results).length) :
    ((merged_dataset results).get ⟨i, Nat.lt_of_succ_lt hi⟩).symbol
        < ((merged_dataset results).get ⟨i + 1, hi⟩).symbol
      ∨ (((merged_dataset results).get ⟨i, Nat.lt_of_succ_lt hi⟩).symbol
            = ((merged_dataset results).get ⟨i + 1, hi⟩).symbol
          ∧ ((merged_dataset results).get ⟨i, Nat.lt_of_succ_lt hi⟩).date
            ≤ ((merged_dataset results).get ⟨i + 1, hi⟩).date) := by
  have hs : (merged_dataset results).Sorted rowLE :=
    List.sorted_insertionSort rowLE _
  have h := hs.rel_get_of_lt
    (a := ⟨i, Nat.lt_of_succ_lt hi⟩) (b := ⟨i + 1, hi⟩)
    (by simp [Fin.lt_def])
  exact h

/-- Concrete example rows used by witnesses. -/
def rowA : PriceRow :=
  { date := 20251006, price_open := 100, price_high := 110, price_low := 95
  , price_close := 105, volume := 1000, symbol := "INFY", adjusted_close := none }

def rowB : PriceRow :=
  { date := 20251007, price_open := 200, price_high := 210, price_low := 195
  , price_close := 205, volume := 2000, symbol := "TCS", adjusted_close := some 204 }

/-- Concrete batch results used by witnesses. -/
def resultsEx : List SymbolResult :=
  [SymbolResult.Success [rowB, rowA] 2]

/-- Witness for C2 on a concrete two-row dataset. -/
theorem dataset_sort_invariant_witness :
    ((merged_dataset resultsEx).get ⟨0, by decide⟩).symbol
        < ((merged_dataset resultsEx).get ⟨1, by decide⟩).symbol
      ∨ (((merged_dataset resultsEx).get ⟨0, by decide⟩).symbol
            = ((merged_dataset resultsEx).get ⟨1, by decide⟩).symbol
          ∧ ((merged_dataset resultsEx).get ⟨0, by decide⟩).date
            ≤ ((merged_dataset resultsEx).get ⟨1, by decide⟩).date) :=
  dataset_sort_invariant resultsEx 0 (by decide)

lemma withRetryGo_success (sym : String) (op : Nat → Except String (List PriceRow))
    (base : ℚ) : ∀ (f a : Nat) {rows : List PriceRow} {c : Nat},
    (withRetryGo sym op base a f).1 = .Success rows c →
    ∃ k, op k = .ok rows ∧ c = rows.length := by
  intro f
  induction f with
  | zero =>
    intro a rows c h
    unfold withRetryGo at h
    cases hop : op a with
    | ok r =>
      rw [hop] at h
      simp only at h
      obtain ⟨h1, h2⟩ := SymbolResult.Success.inj h
      exact ⟨a, by rw [hop, h1], by rw [← h2, h1]⟩
    | error e =>
      rw [hop] at h
      simp only at h
      cases h
  | succ f ih =>
    intro a rows c h
    unfold withRetryGo at h
    cases hop : op a with
    | ok r =>
      rw [hop] at h
      simp only at h
      obtain ⟨h1, h2⟩ := SymbolResult.Success.inj h
      exact ⟨a, by rw [hop, h1], by rw [← h2, h1]⟩
    | error e =>
      rw [hop] at h
      simp only at h
      exact ih (a + 1) h

lemma fetchOnce_ok {provider : Nat → Option (List PriceRow)} {minRows : Nat}
    {sym : String} {attempt : Nat} {rows : List PriceRow}
    (h : fetchOnce provider minRows sym attempt = .ok rows) :
    rows ≠ [] ∧ ∀ r ∈ rows, r.symbol = sym := by
  unfold fetchOnce at h
  cases hp : provider attempt with
  | none =>
    rw [hp] at h
    cases h
  | some rs =>
    rw [hp] at h
    simp only at h
    by_cases he : rs.isEmpty
    · rw [if_pos he] at h
      cases h
    · rw [if_neg he] at h
      by_cases hl : rs.length < minRows
      · rw [if_pos hl] at h
        cases h
      · rw [if_neg hl] at h
        obtain hr := Except.ok.inj h
        subst hr
        constructor
        · intro hc
          rw [List.map_eq_nil_iff] at hc
          rw [hc] at he
          exact he rfl
        · intro r hr
          obtain ⟨r', _, hre⟩ := List.mem_map.mp hr
          rw [← hre]

lemma runSymbol_success {provider : String → Nat → Option (List PriceRow)}
    {minRows maxAttempts : Nat} {base : ℚ} {s : String}
    {rows : List PriceRow} {c : Nat}
    (h : runSymbol provider minRows maxAttempts base s = .Success rows c) :
    c = rows.length ∧ rows ≠ [] ∧ ∀ r ∈ rows, r.symbol = s := by
  unfold runSymbol with_retry at h
  obtain ⟨k, hok, hc⟩ := withRetryGo_success _ _ _ _ _ h
  obtain ⟨hne, hsym⟩ := fetchOnce_ok hok
  exact ⟨hc, hne, hsym⟩

lemma sum_successCount (l : List SymbolResult)
    (h : ∀ r ∈ l, successCount r = (successRows r).length) :
    (l.map successCount).sum
      = (((l.filter (fun r => r.isSuccess)).map successRows).map
          List.length).sum := by
  induction l with
  | nil => rfl
  | cons r t ih =>
    have ht := ih (fun x hx => h x (List.mem_cons_of_mem r hx))
    cases r with
    | Success rows c =>
      have hc : c = rows.length := by
        simpa [successCount, successRows] using h _ (List.mem_cons_self _ t)
      simp [successCount, successRows, SymbolResult.isSuccess, List.filter_cons,
        ht, hc]
    | Failure s e a =>
      simp [successCount, successRows, SymbolResult.isSuccess, List.filter_cons,
        ht]

/-- C1: on any non-empty symbol list whose batch has at least one Success,
run_batch followed by merge_and_export produces exactly one OutputArtifact;
its row_count is the sum of the row counts of all Success results and its
symbol_count is the number of distinct successfully fetched symbols. -/
theorem batch_merge_artifact (provider : String → Nat → Option (List PriceRow))
    (minRows maxAttempts : Nat) (base : ℚ) (byteSize : List PriceRow → Nat)
    (day : Nat) (symbols : List String) (results : List SymbolResult)
    (hrun : run_batch provider minRows maxAttempts base symbols = some results)
    (hsucc : ∃ r ∈ results, r.isSuccess = true) :
    ∃ art : OutputArtifact,
      merge_and_export byteSize day results = some art
        ∧ art.row_count = (results.map successCount).sum
        ∧ art.symbol_count
            = ((symbols.filter (fun s =>
                (runSymbol provider minRows maxAttempts base s).isSuccess)).dedup).length := by
  have hres : results = symbols.map (fun s => runSymbol provider minRows maxAttempts base s) := by
    unfold run_batch at hrun
    by_cases he : symbols.isEmpty
    · rw [if_pos he] at hrun
      cases hrun
    · rw [if_neg he] at hrun
      exact (Option.some.inj hrun).symm
  have hfil : (results.filter (fun r => r.isSuccess)).isEmpty = false := by
    obtain ⟨r, hr, hs⟩ := hsucc
    have : r ∈ results.filter (fun r => r.isSuccess) := List.mem_filter.mpr ⟨hr, hs⟩
    cases hfe : (results.filter (fun r => r.isSuccess)).isEmpty
    · rfl
    · rw [List.isEmpty_iff.mp hfe] at this
      cases this
  refine ⟨{ path := artifactName day
          , row_count := (merged_dataset results).length
          , symbol_count := ((merged_dataset results).map (fun r => r.symbol)).dedup.length
          , byte_size := byteSize (merged_dataset results)
          , created_at := day }, ?_, ?_, ?_⟩
  · unfold merge_and_export
    rw [hfil]
    rfl
  · -- row_count
    show (merged_dataset results).length = (results.map successCount).sum
    have hperm : List.Perm (merged_dataset results)
        (((results.filter (fun r => r.isSuccess)).map successRows).flatten) :=
      List.perm_insertionSort rowLE _
    have hcnt : ∀ r ∈ results, successCount r = (successRows r).length := by
      intro r hr
      rw [hres] at hr
      obtain ⟨s, _, hrs⟩ := List.mem_map.mp hr
      cases hrv : r with
      | Success rows c =>
        rw [hrv] at hrs
        obtain ⟨hc, _, _⟩ := runSymbol_success hrs
        simp [successCount, successRows, hc]
      | Failure s' e a =>
        simp [successCount, successRows]
    rw [hperm.length_eq, List.length_flatten, sum_successCount results hcnt]
  · -- symbol_count
    show ((merged_dataset results).map (fun r => r.symbol)).dedup.length = _
    rw [← List.card_toFinset, ← List.card_toFinset]
    congr 1
    ext a
    rw [List.mem_toFinset, List.mem_toFinset]
    have hperm : List.Perm (merged_dataset results)
        (((results.filter (fun r => r.isSuccess)).map successRows).flatten) :=
      List.perm_insertionSort rowLE _
    rw [(hperm.map (fun r => r.symbol)).mem_iff]
    constructor
    · intro ha
      obtain ⟨row, hrow, hsym⟩ := List.mem_map.mp ha
      obtain ⟨block, hblock, hrowin⟩ := List.mem_flatten.mp hrow
      obtain ⟨r, hrfil, hrb⟩ := List.mem_map.mp hblock
      have hrmem := List.mem_filter.mp hrfil
      rw [hres] at hrmem
      obtain ⟨s, hsmem, hrs⟩ := List.mem_map.mp hrmem.1
      cases hrv : r with
      | Success rows c =>
        rw [hrv] at hrs
        obtain ⟨_, _, htag⟩ := runSymbol_success hrs
        have : row.symbol = s := by
          apply htag
          rw [← show successRows (SymbolResult.Success rows c) = rows from rfl,
            ← hrv, hrb]
          exact hrowin
        rw [List.mem_filter]
        refine ⟨by rw [← hsym, this]; exact hsmem, ?_⟩
        rw [← hsym, this, hrs]
        rfl
      | Failure s' e att =>
        have hf := hrmem.2
        rw [hrv] at hf
        simp [SymbolResult.isSuccess] at hf
    · intro ha
      have hamem := List.mem_filter.mp ha
      cases hrv : runSymbol provider minRows maxAttempts base a with
      | Success rows c =>
        obtain ⟨_, hne, htag⟩ := runSymbol_success hrv
        obtain ⟨row, hrowin⟩ := List.exists_mem_of_ne_nil rows hne
        refine List.mem_map.mpr ⟨row, ?_, htag row hrowin⟩
        refine List.mem_flatten.mpr ⟨rows, ?_, hrowin⟩
        refine List.mem_map.mpr
          ⟨runSymbol provider minRows maxAttempts base a, ?_, by rw [hrv]; rfl⟩
        refine List.mem_filter.mpr ⟨?_, hamem.2⟩
        rw [hres]
        exact List.mem_map.mpr ⟨a, hamem.1, rfl⟩
      | Failure s' e att =>
        have := hamem.2
        rw [hrv] at this
        cases this

/-- A concrete provider that always returns one row. -/
def providerEx : String → Nat → Option (List PriceRow) := fun _ _ => some [rowA]

/-- Witness for C1 at a concrete one-symbol batch. -/
theorem batch_merge_artifact_witness :
    ∃ art : OutputArtifact,
      merge_and_export (fun _ => 0) 20251010
          (["TCS"].map (fun s => runSymbol providerEx 1 3 (3 / 2) s)) = some art
        ∧ art.row_count
            = ((["TCS"].map (fun s => runSymbol providerEx 1 3 (3 / 2) s)).map
                successCount).sum
        ∧ art.symbol_count
            = ((["TCS"].filter (fun s =>
                (runSymbol providerEx 1 3 (3 / 2) s).isSuccess)).dedup).length :=
  batch_merge_artifact providerEx 1 3 (3 / 2) (fun _ => 0) 20251010 ["TCS"] _ rfl
    (by decide)

lemma findParquetFile_matches {files : List String} {f : String}
    (h : findParquetFile files = some f) : matchesPattern f = true := by
  unfold findParquetFile at h
  have hf : f ∈ files.filter (fun f => matchesPattern f) :=
    List.mem_of_mem_head? (by rw [h]; rfl)
  exact (List.mem_filter.mp hf).2

/-- C8: the workflow pushes to the remote NIFTY repository only when a local
file matching nse_data_*.parquet was found by check_files and was validated
to hold at least one row; a failed check or validation fails the job before
any remote write, since every git step is guarded on the check outcome and on
job success. -/
theorem push_requires_validated_file (w : World)
    (h : (runJob w).pushed = true) :
    ∃ f, findParquetFile w.localFiles = some f ∧ matchesPattern f = true
      ∧ ∃ r, w.parse f = some r ∧ 1 ≤ r := by
  have h' : (afterPush w).pushed = true := h
  unfold afterPush at h'
  cases hdl : w.downloadOk with
  | false =>
    exfalso
    simp only [hdl, guardStep, check_files, validate_parquet,
      configure_credentials, clone_nifty, delete_old_step, add_new,
      push_changes, Bool.not_true, Bool.false_and, Bool.not_false,
      Bool.true_and, if_false] at h'
    cases h'
  | true =>
    cases hf : findParquetFile w.localFiles with
    | none =>
      exfalso
      simp [hdl, hf, guardStep, check_files, validate_parquet,
        configure_credentials, clone_nifty, delete_old_step, add_new,
        push_changes] at h'
    | some f =>
      refine ⟨f, rfl, findParquetFile_matches hf, ?_⟩
      cases hp : w.parse f with
      | none =>
        exfalso
        simp [hdl, hf, hp, guardStep, check_files, validate_parquet,
          configure_credentials, clone_nifty, delete_old_step, add_new,
          push_changes] at h'
      | some rows =>
        by_cases hz : rows = 0
        · exfalso
          simp [hdl, hf, hp, hz, guardStep, check_files, validate_parquet,
            configure_credentials, clone_nifty, delete_old_step, add_new,
            push_changes] at h'
        · exact ⟨rows, rfl, Nat.one_le_iff_ne_zero.mpr hz⟩

/-- Witness for C8 at a concrete environment in which the job pushes. -/
theorem push_requires_validated_file_witness :
    ∃ f, findParquetFile wEx.localFiles = some f ∧ matchesPattern f = true
      ∧ ∃ r, wEx.parse f = some r ∧ 1 ≤ r :=
  push_requires_validated_file wEx (by decide)

end NSE
